import Mathlib

/-!
# Verification of the Fly-App repository

A shallow embedding, in Lean 4, of the logic of the two source files of the
repository:

* `services/geminiService.ts` — the delimiter-based parsing of the text-model
  response inside `generateAdContent`, the construction of the follow-up
  image-generation request, and the scan for an inline-image part inside
  `editAdImage`;
* `App.tsx` — the project-history operations `saveCurrentProject`,
  `handleDeleteProject` and the `handleEdit` flow.

Strings are modelled as `List Char` for the parsing layer (so that the
JavaScript regular expressions `---DESCRIPCION---([\s\S]*)---PROMPT---` and
`---PROMPT---([\s\S]*)` (each enclosed in regex slashes in the source) can be given exact index-level semantics) and as
`String` for the application-state layer, where they are only compared for
equality.
-/

namespace FlyApp

/-! ## JavaScript string primitives -/

/-- The characters removed by JavaScript's `String.prototype.trim`:
ECMAScript WhiteSpace (TAB, VT, FF, SP, NBSP, ZWNBSP and the Unicode
space-separator category) together with the LineTerminator characters
(LF, CR, LS, PS). -/
def jsWhitespace (c : Char) : Bool :=
  c = ' ' || c = '\t' || c = '\n' || c = '\r' ||
  c = Char.ofNat 11 || c = Char.ofNat 12 || c = Char.ofNat 160 ||
  c = Char.ofNat 5760 ||
  (Char.ofNat 8192 ≤ c && c ≤ Char.ofNat 8202) ||
  c = Char.ofNat 8232 || c = Char.ofNat 8233 ||
  c = Char.ofNat 8239 || c = Char.ofNat 8287 || c = Char.ofNat 12288 ||
  c = Char.ofNat 65279

/-- JavaScript `s.trim()`: strip `jsWhitespace` characters from both ends. -/
def jsTrim (s : List Char) : List Char :=
  ((s.dropWhile jsWhitespace).reverse.dropWhile jsWhitespace).reverse

/-- `pat` occurs in `s` at index `i` (as in a regex-engine match attempt at
position `i`). -/
def matchesAt (pat s : List Char) (i : Nat) : Bool :=
  pat.isPrefixOf (s.drop i)

/-- `pat` occurs somewhere in `s`. -/
def occursIn (pat s : List Char) : Bool :=
  (List.range (s.length + 1)).any (matchesAt pat s)

/-! ## `generateAdContent`: response parsing (geminiService.ts, lines 51–59) -/

/-- The literal delimiter `---DESCRIPCION---` of the structured response. -/
def descripcionTag : List Char := "---DESCRIPCION---".data

/-- The literal delimiter `---PROMPT---` of the structured response. -/
def promptTag : List Char := "---PROMPT---".data

/-- A match attempt of the regex `---DESCRIPCION---([\s\S]*)---PROMPT---` can start at
index `i` exactly when `---DESCRIPCION---` occurs at `i` and `---PROMPT---`
occurs at some index at or after the end of that occurrence (the greedy group
`[\s\S]*` may be empty). -/
def validDescStart (s : List Char) (i : Nat) : Bool :=
  matchesAt descripcionTag s i &&
    (List.range (s.length + 1)).any
      (fun j => decide (i + descripcionTag.length ≤ j) && matchesAt promptTag s j)

/-- Start index of the first (leftmost) match of the regex
`---DESCRIPCION---([\s\S]*)---PROMPT---` in `s`. -/
def descStart (s : List Char) : Option Nat :=
  (List.range (s.length + 1)).find? (validDescStart s)

/-- The last index `j ≥ k` at which `---PROMPT---` occurs in `s`: since the
group `[\s\S]*` is greedy, the `---PROMPT---` of the first regex consumes the
last such occurrence. -/
def lastPromptFrom (s : List Char) (k : Nat) : Option Nat :=
  ((List.range (s.length + 1)).filter
      (fun j => decide (k ≤ j) && matchesAt promptTag s j)).getLast?

/-- The capture group of `responseText.match` on the regex
`---DESCRIPCION---([\s\S]*)---PROMPT---` (`none` when the regex does not match). -/
def descriptionMatch (s : List Char) : Option (List Char) :=
  match descStart s with
  | none => none
  | some i =>
    match lastPromptFrom s (i + descripcionTag.length) with
    | none => none
    | some j => some ((s.drop (i + descripcionTag.length)).take (j - (i + descripcionTag.length)))

/-- The capture group of `responseText.match` on the regex `---PROMPT---([\s\S]*)`:
everything after the first occurrence of `---PROMPT---` (`none` when the
delimiter is absent). -/
def promptMatch (s : List Char) : Option (List Char) :=
  match (List.range (s.length + 1)).find? (matchesAt promptTag s) with
  | none => none
  | some j => some (s.drop (j + promptTag.length))

/-- The fallback description used when the `---DESCRIPCION---` pattern fails. -/
def fallbackDescription : List Char :=
  "No se pudo generar la descripción. Inténtalo de nuevo.".data

/-- The fallback image prompt, built from the style label, used when the
`---PROMPT---` pattern fails. -/
def fallbackPrompt (style : List Char) : List Char :=
  "A professional advertisement image based on the user's provided images and context, in a ".data
    ++ style ++ " style.".data

/-- Result of the parsing step of `generateAdContent`: the description, the
image-generation prompt, and whether `console.warn` was called. -/
structure ParsedAdResponse where
  description : List Char
  imageGenerationPrompt : List Char
  warned : Bool
deriving DecidableEq

/-- Lines 51–59 of geminiService.ts: run both regexes on the response text;
trim the captures, or fall back; warn when either pattern failed. -/
def parseAdResponse (responseText style : List Char) : ParsedAdResponse :=
  let dm := descriptionMatch responseText
  let pm := promptMatch responseText
  { description := match dm with | some d => jsTrim d | none => fallbackDescription
    imageGenerationPrompt := match pm with | some p => jsTrim p | none => fallbackPrompt style
    warned := dm.isNone || pm.isNone }

/-! ## Generic lemmas about index search over ranges and substring matching -/

theorem find?_range_eq_some (p : Nat → Bool) (n len : Nat) (hn : n < len)
    (hp : p n = true) (hmin : ∀ m, m < n → p m = false) :
    (List.range len).find? p = some n := by
  induction len with
  | zero => omega
  | succ len ih =>
    rw [List.range_succ, List.find?_append]
    rcases Nat.lt_or_ge n len with h | h
    · rw [ih h]; rfl
    · have hn' : n = len := by omega
      subst hn'
      have hnone : (List.range n).find? p = none := by
        rw [List.find?_eq_none]
        intro x hx
        simp only [List.mem_range] at hx
        simp [hmin x hx]
      rw [hnone]
      simp [List.find?, hp]

theorem filter_range_getLast (p : Nat → Bool) (j len : Nat) (hj : j < len)
    (hp : p j = true) (hmax : ∀ m, j < m → p m = false) :
    ((List.range len).filter p).getLast? = some j := by
  have hlen : len = (j + 1) + (len - (j + 1)) := by omega
  rw [hlen, List.range_add, List.filter_append]
  have h2 : ((List.range (len - (j + 1))).map ((j + 1) + ·)).filter p = [] := by
    rw [List.filter_eq_nil_iff]
    intro x hx
    simp only [List.mem_map] at hx
    obtain ⟨y, _, rfl⟩ := hx
    simp [hmax ((j + 1) + y) (by omega)]
  rw [h2, List.append_nil, List.range_succ, List.filter_append]
  have h3 : List.filter p [j] = [j] := by simp [hp]
  rw [h3, List.getLast?_concat]

theorem matchesAt_after (x pat y : List Char) :
    matchesAt pat (x ++ (pat ++ y)) x.length = true := by
  unfold matchesAt
  rw [List.drop_left]
  exact List.isPrefixOf_iff_prefix.mpr (List.prefix_append pat y)

theorem matchesAt_take (pat s : List Char) (i m : Nat)
    (h : matchesAt pat s i = true) (hm : i + pat.length ≤ m) :
    matchesAt pat (s.take m) i = true := by
  unfold matchesAt at h ⊢
  rw [List.drop_take]
  obtain ⟨t, ht⟩ := List.isPrefixOf_iff_prefix.mp h
  refine List.isPrefixOf_iff_prefix.mpr ?_
  rw [← ht, List.take_append_eq_append_take, List.take_of_length_le (by omega)]
  exact List.prefix_append _ _

theorem matchesAt_drop (pat s : List Char) (k i : Nat) (hk : k ≤ i)
    (h : matchesAt pat s i = true) : matchesAt pat (s.drop k) (i - k) = true := by
  unfold matchesAt at h ⊢
  rw [List.drop_drop]
  have hki : k + (i - k) = i := by omega
  rw [hki]
  exact h

theorem occursIn_of_matchesAt (pat s : List Char) (i : Nat) (hpat : pat ≠ [])
    (h : matchesAt pat s i = true) : occursIn pat s = true := by
  have hi : i ≤ s.length := by
    by_contra hgt
    push_neg at hgt
    unfold matchesAt at h
    rw [List.drop_of_length_le (by omega)] at h
    cases pat with
    | nil => exact hpat rfl
    | cons a l => simp [List.isPrefixOf] at h
  unfold occursIn
  rw [List.any_eq_true]
  exact ⟨i, List.mem_range.mpr (by omega), h⟩

theorem take_decomp (x pat rest : List Char) (k : Nat) (hk : k ≤ pat.length) :
    (x ++ (pat ++ rest)).take (x.length + k) = x ++ pat.take k := by
  rw [List.take_append_eq_append_take, List.take_of_length_le (by omega)]
  congr 1
  rw [Nat.add_sub_cancel_left]
  exact List.take_append_of_le_length hk

/-- The first regex of `generateAdContent` captures exactly the text between a
unique `---DESCRIPCION---` and the last `---PROMPT---`: on a text
`a ++ (descripcionTag ++ (b ++ (promptTag ++ c)))` in which no occurrence of
`---DESCRIPCION---` starts before `a.length` and no occurrence of
`---PROMPT---` starts after `(a ++ descripcionTag ++ b).length`, the capture
is exactly `b`. -/
theorem descriptionMatch_decomp (a b c : List Char)
    (hD : occursIn descripcionTag (a ++ descripcionTag.take (descripcionTag.length - 1)) = false)
    (hP2 : occursIn promptTag (promptTag.drop 1 ++ c) = false) :
    descriptionMatch (a ++ (descripcionTag ++ (b ++ (promptTag ++ c)))) = some b := by
  have hDlen : 0 < descripcionTag.length := by decide
  have hPlen : 0 < promptTag.length := by decide
  have hDne : descripcionTag ≠ [] := by decide
  have hPne : promptTag ≠ [] := by decide
  have hslen : (a ++ (descripcionTag ++ (b ++ (promptTag ++ c)))).length =
      a.length + descripcionTag.length + b.length + promptTag.length + c.length := by
    simp only [List.length_append]
    omega
  have hDocc : matchesAt descripcionTag (a ++ (descripcionTag ++ (b ++ (promptTag ++ c)))) a.length = true :=
    matchesAt_after a _ _
  have hPocc : matchesAt promptTag (a ++ (descripcionTag ++ (b ++ (promptTag ++ c))))
      (a.length + descripcionTag.length + b.length) = true := by
    have h := matchesAt_after (a ++ (descripcionTag ++ b)) promptTag c
    simpa [List.append_assoc, List.length_append, Nat.add_assoc] using h
  have hDmin : ∀ m, m < a.length →
      validDescStart (a ++ (descripcionTag ++ (b ++ (promptTag ++ c)))) m = false := by
    intro m hm
    have hfalse : matchesAt descripcionTag (a ++ (descripcionTag ++ (b ++ (promptTag ++ c)))) m = false := by
      by_contra hne
      rw [Bool.not_eq_false] at hne
      have h1 := matchesAt_take _ _ m (a.length + (descripcionTag.length - 1)) hne (by omega)
      rw [take_decomp a descripcionTag _ (descripcionTag.length - 1) (by omega)] at h1
      have h2 := occursIn_of_matchesAt _ _ m hDne h1
      rw [hD] at h2
      exact Bool.false_ne_true h2
    unfold validDescStart
    rw [hfalse, Bool.false_and]
  have hPmax : ∀ m, a.length + descripcionTag.length + b.length < m →
      matchesAt promptTag (a ++ (descripcionTag ++ (b ++ (promptTag ++ c)))) m = false := by
    intro m hm
    by_contra hne
    rw [Bool.not_eq_false] at hne
    have h1 := matchesAt_drop promptTag _ (a.length + descripcionTag.length + b.length + 1) m
      (by omega) hne
    have hdrop : (a ++ (descripcionTag ++ (b ++ (promptTag ++ c)))).drop
        (a.length + descripcionTag.length + b.length + 1) = promptTag.drop 1 ++ c := by
      have e1 : a ++ (descripcionTag ++ (b ++ (promptTag ++ c)))
          = (a ++ (descripcionTag ++ b)) ++ (promptTag ++ c) := by
        simp [List.append_assoc]
      have e2 : a.length + descripcionTag.length + b.length + 1
          = (a ++ (descripcionTag ++ b)).length + 1 := by
        simp only [List.length_append]
        omega
      rw [e1, e2, List.drop_append]
      exact List.drop_append_of_le_length (by omega)
    rw [hdrop] at h1
    have h2 := occursIn_of_matchesAt _ _ _ hPne h1
    rw [hP2] at h2
    exact Bool.false_ne_true h2
  have hdescStart : descStart (a ++ (descripcionTag ++ (b ++ (promptTag ++ c)))) = some a.length := by
    unfold descStart
    apply find?_range_eq_some
    · rw [hslen]; omega
    · unfold validDescStart
      rw [hDocc]
      simp only [Bool.true_and]
      rw [List.any_eq_true]
      refine ⟨a.length + descripcionTag.length + b.length,
        List.mem_range.mpr (by rw [hslen]; omega), ?_⟩
      simp only [hPocc, Bool.and_true]
      exact decide_eq_true (by omega)
    · exact hDmin
  have hlast : lastPromptFrom (a ++ (descripcionTag ++ (b ++ (promptTag ++ c))))
      (a.length + descripcionTag.length) = some (a.length + descripcionTag.length + b.length) := by
    unfold lastPromptFrom
    apply filter_range_getLast
    · rw [hslen]; omega
    · simp only [hPocc, Bool.and_true]
      exact decide_eq_true (by omega)
    · intro m hm
      simp only [hPmax m hm, Bool.and_false]
  simp only [descriptionMatch, hdescStart, hlast]
  congr 1
  have hdrop2 : (a ++ (descripcionTag ++ (b ++ (promptTag ++ c)))).drop
      (a.length + descripcionTag.length) = b ++ (promptTag ++ c) := by
    simp [List.append_assoc]
  rw [hdrop2]
  have hb : a.length + descripcionTag.length + b.length - (a.length + descripcionTag.length)
      = b.length := by omega
  rw [hb]
  exact List.take_left' rfl

/-- The second regex of `generateAdContent` captures exactly the text after the
first `---PROMPT---`: on a text `x ++ (promptTag ++ c)` in which no occurrence
of `---PROMPT---` starts before `x.length`, the capture is exactly `c`. -/
theorem promptMatch_decomp (x c : List Char)
    (h1 : occursIn promptTag (x ++ promptTag.take (promptTag.length - 1)) = false) :
    promptMatch (x ++ (promptTag ++ c)) = some c := by
  have hPlen : 0 < promptTag.length := by decide
  have hPne : promptTag ≠ [] := by decide
  have hslen : (x ++ (promptTag ++ c)).length = x.length + promptTag.length + c.length := by
    simp only [List.length_append]
    omega
  have hPocc : matchesAt promptTag (x ++ (promptTag ++ c)) x.length = true := matchesAt_after x _ _
  have hPmin : ∀ m, m < x.length → matchesAt promptTag (x ++ (promptTag ++ c)) m = false := by
    intro m hm
    by_contra hne
    rw [Bool.not_eq_false] at hne
    have ht := matchesAt_take _ _ m (x.length + (promptTag.length - 1)) hne (by omega)
    rw [take_decomp x promptTag c (promptTag.length - 1) (by omega)] at ht
    have h2 := occursIn_of_matchesAt _ _ m hPne ht
    rw [h1] at h2
    exact Bool.false_ne_true h2
  have hfind := find?_range_eq_some (matchesAt promptTag (x ++ (promptTag ++ c))) x.length
    ((x ++ (promptTag ++ c)).length + 1) (by rw [hslen]; omega) hPocc hPmin
  simp only [promptMatch, hfind]
  congr 1
  simp [List.append_assoc]

/-- **C1**: for every response text containing `---DESCRIPCION---` followed by
`---PROMPT---` (each delimiter occurring at a unique position, so that "the
substring between them" and "the substring after it" are well defined), the
parsing step of `generateAdContent` extracts as description the exact substring
between `---DESCRIPCION---` and `---PROMPT---` trimmed of surrounding
whitespace, and as image prompt the exact substring after `---PROMPT---`
trimmed of surrounding whitespace; no fallback is used and no warning is
recorded. The spec's concrete example is the witness theorem below. -/
theorem generateAdContent_extracts_delimited_sections (a b c style : List Char)
    (hD : occursIn descripcionTag (a ++ descripcionTag.take (descripcionTag.length - 1)) = false)
    (hP1 : occursIn promptTag
      ((a ++ (descripcionTag ++ b)) ++ promptTag.take (promptTag.length - 1)) = false)
    (hP2 : occursIn promptTag (promptTag.drop 1 ++ c) = false) :
    parseAdResponse (a ++ (descripcionTag ++ (b ++ (promptTag ++ c)))) style =
      { description := jsTrim b, imageGenerationPrompt := jsTrim c, warned := false } := by
  have hdm := descriptionMatch_decomp a b c hD hP2
  have hpm0 := promptMatch_decomp (a ++ (descripcionTag ++ b)) c hP1
  have hpm : promptMatch (a ++ (descripcionTag ++ (b ++ (promptTag ++ c)))) = some c := by
    have e1 : (a ++ (descripcionTag ++ b)) ++ (promptTag ++ c)
        = a ++ (descripcionTag ++ (b ++ (promptTag ++ c))) := by
      simp [List.append_assoc]
    rw [e1] at hpm0
    exact hpm0
  simp [parseAdResponse, hdm, hpm]

/-- Witness for C1: the spec's concrete example response text yields
description `"Great sale! 🎉"` and prompt `"A photo of a sale banner"`. -/
theorem generateAdContent_extracts_delimited_sections_witness :
    parseAdResponse
        "---TEXTO_A_INTEGRAR---\nFoo\n---DESCRIPCION---\nGreat sale! 🎉\n---PROMPT---\nA photo of a sale banner".data
        "Automático".data =
      { description := "Great sale! 🎉".data,
        imageGenerationPrompt := "A photo of a sale banner".data, warned := false } := by
  have h := generateAdContent_extracts_delimited_sections
    "---TEXTO_A_INTEGRAR---\nFoo\n".data "\nGreat sale! 🎉\n".data
    "\nA photo of a sale banner".data "Automático".data
    (by decide) (by decide) (by decide)
  have e : "---TEXTO_A_INTEGRAR---\nFoo\n---DESCRIPCION---\nGreat sale! 🎉\n---PROMPT---\nA photo of a sale banner".data
      = "---TEXTO_A_INTEGRAR---\nFoo\n".data ++ (descripcionTag ++
          ("\nGreat sale! 🎉\n".data ++ (promptTag ++ "\nA photo of a sale banner".data))) := by
    decide
  rw [e, h]
  decide

/-- **C2**: when the `---DESCRIPCION---` pattern or the `---PROMPT---` pattern
fails to match, the parsing step substitutes the fixed fallback description
and/or the style-derived fallback prompt and records a warning; being a total
function of the response text, it never throws. -/
theorem generateAdContent_fallback_on_missing_delimiters (s style : List Char) :
    (descriptionMatch s = none →
        (parseAdResponse s style).description = fallbackDescription ∧
        (parseAdResponse s style).warned = true) ∧
    (promptMatch s = none →
        (parseAdResponse s style).imageGenerationPrompt = fallbackPrompt style ∧
        (parseAdResponse s style).warned = true) := by
  constructor
  · intro h
    simp [parseAdResponse, h]
  · intro h
    simp [parseAdResponse, h]

/-- Witness for C2: on a response with no delimiters at all, both fallbacks
are used and the warning is recorded. -/
theorem generateAdContent_fallback_on_missing_delimiters_witness :
    (parseAdResponse "Hello world".data "Lujoso y Exclusivo".data).description =
        fallbackDescription ∧
    (parseAdResponse "Hello world".data "Lujoso y Exclusivo".data).imageGenerationPrompt =
        fallbackPrompt "Lujoso y Exclusivo".data ∧
    (parseAdResponse "Hello world".data "Lujoso y Exclusivo".data).warned = true := by
  have h := generateAdContent_fallback_on_missing_delimiters "Hello world".data
    "Lujoso y Exclusivo".data
  have h1 := h.1 (by decide)
  have h2 := h.2 (by decide)
  exact ⟨h1.1, h2.1, h1.2⟩

/-! ## `generateAdContent`: the image-generation request (geminiService.ts, lines 61–79) -/

/-- The encoded bytes of one generated image (`image.imageBytes`). -/
structure GeneratedImage where
  imageBytes : List Char
deriving DecidableEq

/-- One entry of `imageResponse.generatedImages`. -/
structure GeneratedImageEntry where
  image : GeneratedImage
deriving DecidableEq

/-- The shape of the `generateImages` response that the code inspects:
`generatedImages` may be absent (`none`) or a list. -/
structure ImageGenResponse where
  generatedImages : Option (List GeneratedImageEntry)
deriving DecidableEq

/-- The request issued by `ai.models.generateImages` at lines 61–69. -/
structure ImageGenRequest where
  model : List Char
  prompt : List Char
  numberOfImages : Nat
  outputMimeType : List Char
  aspectRatio : List Char
deriving DecidableEq

/-- The final value of `generateAdContent` (image data URI + description). -/
structure AdContentResult where
  imageUrl : List Char
  description : List Char
deriving DecidableEq

/-- Lines 51–79 of geminiService.ts after the text response arrives: parse the
response, issue the image-generation request built from the extracted prompt
(one image, JPEG, 1:1), and either return the first generated image as a JPEG
data URI paired with the description, or throw the generic error. The pair
returned is (request issued, result or thrown error message). -/
def generateAdContentFinish (responseText style : List Char)
    (imageResponse : ImageGenResponse) :
    ImageGenRequest × Except (List Char) AdContentResult :=
  let parsed := parseAdResponse responseText style
  let req : ImageGenRequest :=
    { model := "imagen-4.0-generate-001".data,
      prompt := parsed.imageGenerationPrompt,
      numberOfImages := 1,
      outputMimeType := "image/jpeg".data,
      aspectRatio := "1:1".data }
  match imageResponse.generatedImages with
  | some (entry :: _) =>
    (req, Except.ok
      { imageUrl := "data:image/jpeg;base64,".data ++ entry.image.imageBytes,
        description := parsed.description })
  | some [] => (req, Except.error "No se pudo generar la imagen publicitaria.".data)
  | none => (req, Except.error "No se pudo generar la imagen publicitaria.".data)

/-- **C7**: `generateAdContent` issues its second request with the extracted
prompt, asking for exactly one image in 1:1 aspect ratio; with at least one
generated image it returns the first image's bytes as a JPEG data URI paired
with the extracted description, and with no image it raises the single generic
error. -/
theorem generateAdContent_image_request_and_result (responseText style : List Char)
    (resp : ImageGenResponse) :
    (generateAdContentFinish responseText style resp).1 =
      { model := "imagen-4.0-generate-001".data,
        prompt := (parseAdResponse responseText style).imageGenerationPrompt,
        numberOfImages := 1,
        outputMimeType := "image/jpeg".data,
        aspectRatio := "1:1".data } ∧
    (∀ entry rest, resp.generatedImages = some (entry :: rest) →
        (generateAdContentFinish responseText style resp).2 =
          Except.ok { imageUrl := "data:image/jpeg;base64,".data ++ entry.image.imageBytes,
                      description := (parseAdResponse responseText style).description }) ∧
    ((resp.generatedImages = none ∨ resp.generatedImages = some []) →
        (generateAdContentFinish responseText style resp).2 =
          Except.error "No se pudo generar la imagen publicitaria.".data) := by
  refine ⟨?_, ?_, ?_⟩
  · rcases resp with ⟨gi⟩
    rcases gi with _ | ⟨_ | ⟨e, r⟩⟩ <;> rfl
  · intro entry rest h
    rcases resp with ⟨gi⟩
    simp only at h
    subst h
    rfl
  · intro h
    rcases resp with ⟨gi⟩
    simp only at h
    rcases h with h | h <;> subst h <;> rfl

/-- Witness for C7: a response carrying one image yields the data URI of its
bytes, and a response with no image list yields the generic error. -/
theorem generateAdContent_image_request_and_result_witness :
    (generateAdContentFinish "x".data "Automático".data
        { generatedImages := some [{ image := { imageBytes := "QUJD".data } }] }).2 =
      Except.ok { imageUrl := "data:image/jpeg;base64,".data ++ "QUJD".data,
                  description := fallbackDescription } ∧
    (generateAdContentFinish "x".data "Automático".data { generatedImages := none }).2 =
      Except.error "No se pudo generar la imagen publicitaria.".data := by
  constructor
  · have h := (generateAdContent_image_request_and_result "x".data "Automático".data
        { generatedImages := some [{ image := { imageBytes := "QUJD".data } }] }).2.1
        { image := { imageBytes := "QUJD".data } } [] rfl
    have hd : (parseAdResponse "x".data "Automático".data).description = fallbackDescription := by
      decide
    rw [h, hd]
  · exact (generateAdContent_image_request_and_result "x".data "Automático".data
      { generatedImages := none }).2.2 (Or.inl rfl)

/-! ## `editAdImage` (geminiService.ts, lines 82–116) -/

/-- Inline binary data of a response content part. -/
structure InlineData where
  data : List Char
  mimeType : List Char
deriving DecidableEq

/-- One content part of the edit response: it may carry inline image data. -/
structure ContentPart where
  inlineData : Option InlineData
  text : Option (List Char)
deriving DecidableEq

/-- The content of a response candidate. -/
structure CandidateContent where
  parts : List ContentPart
deriving DecidableEq

/-- One candidate of the edit response. -/
structure Candidate where
  content : CandidateContent
deriving DecidableEq

/-- The edit response: a list of candidates (the code reads `candidates[0]`). -/
structure EditResponse where
  candidates : List Candidate
deriving DecidableEq

/-- The `for (const part of ...)` loop of lines 108–115: return a data URI
built from the first part carrying inline data, else throw the generic
error. -/
def editScanParts : List ContentPart → Except (List Char) (List Char)
  | [] => Except.error "No se pudo editar la imagen.".data
  | part :: rest =>
    match part.inlineData with
    | some d => Except.ok ("data:".data ++ d.mimeType ++ ";base64,".data ++ d.data)
    | none => editScanParts rest

/-- `editAdImage` on an arrived response: scans `candidates[0].content.parts`.
`none` models the TypeError the code would raise when `candidates` is empty
(distinct from the generic thrown error, which is `some (Except.error ...)`). -/
def editAdImage (response : EditResponse) : Option (Except (List Char) (List Char)) :=
  match response.candidates with
  | [] => none
  | cand :: _ => some (editScanParts cand.content.parts)

theorem editScanParts_first_inline (ps1 : List ContentPart) (p : ContentPart)
    (ps2 : List ContentPart) (d : InlineData)
    (h1 : ∀ q ∈ ps1, q.inlineData = none) (hp : p.inlineData = some d) :
    editScanParts (ps1 ++ p :: ps2) =
      Except.ok ("data:".data ++ d.mimeType ++ ";base64,".data ++ d.data) := by
  induction ps1 with
  | nil => simp [editScanParts, hp]
  | cons q qs ih =>
    have hq : q.inlineData = none := h1 q (by simp)
    simp only [List.cons_append, editScanParts, hq]
    exact ih (fun r hr => h1 r (by simp [hr]))

theorem editScanParts_no_inline (ps : List ContentPart)
    (h : ∀ q ∈ ps, q.inlineData = none) :
    editScanParts ps = Except.error "No se pudo editar la imagen.".data := by
  induction ps with
  | nil => rfl
  | cons q qs ih =>
    have hq : q.inlineData = none := h q (by simp)
    simp only [editScanParts, hq]
    exact ih (fun r hr => h r (by simp [hr]))

/-- **C8**: on a response whose first candidate exists, `editAdImage` returns
a data URI built with the MIME type and bytes of the first content part
carrying inline image data; when no part carries inline data it fails with
the single generic error. -/
theorem editAdImage_returns_first_inline_part (resp : EditResponse) (cand : Candidate)
    (cs : List Candidate) (hc : resp.candidates = cand :: cs) :
    (∀ ps1 p ps2 d, cand.content.parts = ps1 ++ p :: ps2 →
        (∀ q ∈ ps1, q.inlineData = none) → p.inlineData = some d →
        editAdImage resp = some (Except.ok
          ("data:".data ++ d.mimeType ++ ";base64,".data ++ d.data))) ∧
    ((∀ q ∈ cand.content.parts, q.inlineData = none) →
        editAdImage resp = some (Except.error "No se pudo editar la imagen.".data)) := by
  constructor
  · intro ps1 p ps2 d hparts h1 hp
    unfold editAdImage
    rw [hc]
    show some (editScanParts cand.content.parts) = _
    rw [hparts, editScanParts_first_inline ps1 p ps2 d h1 hp]
  · intro h
    unfold editAdImage
    rw [hc]
    show some (editScanParts cand.content.parts) = _
    rw [editScanParts_no_inline cand.content.parts h]

/-- Witness for C8: a response whose first part is text-only and whose second
part carries inline PNG bytes returns the second part's data URI; a text-only
response yields the generic error. -/
theorem editAdImage_returns_first_inline_part_witness :
    editAdImage
        { candidates := [{ content := { parts :=
            [{ inlineData := none, text := some "ok".data },
             { inlineData := some { data := "QUJD".data, mimeType := "image/png".data },
               text := none }] } }] } =
      some (Except.ok ("data:".data ++ "image/png".data ++ ";base64,".data ++ "QUJD".data)) ∧
    editAdImage
        { candidates := [{ content := { parts :=
            [{ inlineData := none, text := some "ok".data }] } }] } =
      some (Except.error "No se pudo editar la imagen.".data) := by
  constructor
  · exact (editAdImage_returns_first_inline_part _ _ [] rfl).1
      [{ inlineData := none, text := some "ok".data }]
      { inlineData := some { data := "QUJD".data, mimeType := "image/png".data }, text := none }
      [] { data := "QUJD".data, mimeType := "image/png".data }
      rfl (by decide) rfl
  · exact (editAdImage_returns_first_inline_part _ _ [] rfl).2 (by decide)

/-! ## App.tsx: data model and history operations -/

/-- One produced image + description pair (App.tsx type `Generation`). -/
structure Generation where
  imageUrl : String
  description : String
deriving DecidableEq

/-- A persisted project (App.tsx type `SavedProject`). -/
structure SavedProject where
  id : String
  generations : List Generation
  timestamp : String
  previewImage : String
deriving DecidableEq

/-- Outcome of `saveCurrentProject`: the new in-memory saved-projects list and
whether local storage was written (the `localStorage.setItem` call is modelled
as succeeding; its quota-error catch only logs). -/
structure SaveOutcome where
  savedProjects : List SavedProject
  storageWritten : Bool
deriving DecidableEq

/-- App.tsx lines 59–77 (`saveCurrentProject`): return unchanged when the
generation list is empty or `currentProjectId` is falsy (null or the empty
string); otherwise drop every entry whose id equals the current id, build the
fresh record (preview image = first generation's image URL, timestamp = the
current locale time string) and prepend it, then write the list to local
storage. -/
def saveCurrentProject (currentProjectId : Option String)
    (savedProjects : List SavedProject) (now : String)
    (updatedGenerations : List Generation) : SaveOutcome :=
  match updatedGenerations, currentProjectId with
  | [], _ => { savedProjects := savedProjects, storageWritten := false }
  | _, none => { savedProjects := savedProjects, storageWritten := false }
  | g0 :: gs, some pid =>
    if pid = "" then { savedProjects := savedProjects, storageWritten := false }
    else
      { savedProjects :=
          { id := pid, generations := g0 :: gs, timestamp := now,
            previewImage := g0.imageUrl } :: savedProjects.filter (fun p => p.id != pid),
        storageWritten := true }

/-- App.tsx lines 211–219 (`handleDeleteProject`): keep exactly the entries
whose id differs from the deleted one (the same list is then written to local
storage). -/
def handleDeleteProject (savedProjects : List SavedProject) (projectId : String) :
    List SavedProject :=
  savedProjects.filter (fun p => p.id != projectId)

/-- The in-place update `updatedGenerations[updatedGenerations.length-1].imageUrl
= newImageUrl` of App.tsx line 170: replace the last generation's image URL,
keeping its description and all earlier generations. -/
def updateLastImage : List Generation → String → List Generation
  | [], _ => []
  | [g], newUrl => [{ g with imageUrl := newUrl }]
  | g :: g2 :: gs, newUrl => g :: updateLastImage (g2 :: gs) newUrl

/-- The UI step (App.tsx type `AppStep`). -/
inductive AppStep
  | upload
  | processing
  | result
  | editing
deriving DecidableEq

/-- The slice of the App.tsx component state that `handleEdit` reads and
writes. -/
structure AppState where
  step : AppStep
  error : String
  generations : List Generation
  editPrompt : String
  currentProjectId : Option String
  savedProjects : List SavedProject
deriving DecidableEq

/-- Outcome of the awaited pipeline inside `handleEdit`'s try block (fetch,
blob, base64 conversion, `editAdImage`): either the new image data URI, or a
thrown error with its human-readable message. -/
inductive EditCallResult
  | ok (newImageUrl : String)
  | thrown (message : String)

/-- App.tsx lines 156–181 (`handleEdit`), given the outcome of the awaited
edit call: a no-op when the edit prompt is empty or there are no generations;
on success, replace the last generation's image, auto-save, clear the edit
prompt and return to the result step; on a thrown error, leave the generations
and saved projects untouched, set the error message and return to the result
step. -/
def handleEdit (st : AppState) (now : String) (res : EditCallResult) : AppState :=
  if st.editPrompt = "" ∨ st.generations = [] then st
  else
    match res with
    | .thrown msg =>
      { st with error := "Error al editar imagen: " ++ msg, step := .result }
    | .ok newImageUrl =>
      let updatedGenerations := updateLastImage st.generations newImageUrl
      { st with
          generations := updatedGenerations,
          savedProjects := (saveCurrentProject st.currentProjectId st.savedProjects now
            updatedGenerations).savedProjects,
          editPrompt := "",
          error := "",
          step := .result }

theorem updateLastImage_append (init : List Generation) (last : Generation)
    (newUrl : String) :
    updateLastImage (init ++ [last]) newUrl = init ++ [{ last with imageUrl := newUrl }] := by
  induction init with
  | nil => rfl
  | cons g gs ih =>
    cases gs with
    | nil => rfl
    | cons g2 gs2 =>
      simp only [List.cons_append] at ih ⊢
      show g :: updateLastImage (g2 :: (gs2 ++ [last])) newUrl
        = g :: (g2 :: (gs2 ++ [{ last with imageUrl := newUrl }]))
      rw [ih]

/-- **C6**: saving a project whose generation list is empty is a no-op: no
entry is added, the in-memory list is unchanged, and local storage is not
written. -/
theorem saveCurrentProject_empty_generations_noop (currentProjectId : Option String)
    (savedProjects : List SavedProject) (now : String) :
    saveCurrentProject currentProjectId savedProjects now [] =
      { savedProjects := savedProjects, storageWritten := false } := by
  cases currentProjectId <;> rfl

/-- **C4**: deleting a project whose id occurs exactly once removes exactly
that entry; every other entry is preserved with its contents and relative
order unchanged. -/
theorem handleDeleteProject_removes_exactly (l1 l2 : List SavedProject)
    (p : SavedProject) (projectId : String) (hp : p.id = projectId)
    (h1 : ∀ q ∈ l1, q.id ≠ projectId) (h2 : ∀ q ∈ l2, q.id ≠ projectId) :
    handleDeleteProject (l1 ++ p :: l2) projectId = l1 ++ l2 := by
  unfold handleDeleteProject
  rw [List.filter_append]
  have e1 : l1.filter (fun q => q.id != projectId) = l1 :=
    List.filter_eq_self.mpr (fun q hq => by simpa using h1 q hq)
  have e2 : l2.filter (fun q => q.id != projectId) = l2 :=
    List.filter_eq_self.mpr (fun q hq => by simpa using h2 q hq)
  rw [e1]
  congr 1
  simp [List.filter_cons, hp, e2]

/-- Witness for C4: deleting the middle of three projects keeps the outer two
in order. -/
theorem handleDeleteProject_removes_exactly_witness :
    handleDeleteProject
        [{ id := "p1", generations := [], timestamp := "t1", previewImage := "u1" },
         { id := "p2", generations := [], timestamp := "t2", previewImage := "u2" },
         { id := "p3", generations := [], timestamp := "t3", previewImage := "u3" }] "p2" =
      [{ id := "p1", generations := [], timestamp := "t1", previewImage := "u1" },
       { id := "p3", generations := [], timestamp := "t3", previewImage := "u3" }] :=
  handleDeleteProject_removes_exactly
    [{ id := "p1", generations := [], timestamp := "t1", previewImage := "u1" }]
    [{ id := "p3", generations := [], timestamp := "t3", previewImage := "u3" }]
    { id := "p2", generations := [], timestamp := "t2", previewImage := "u2" }
    "p2" rfl (by decide) (by decide)

/-- **C5**: saving a non-empty generation list under an active id overwrites
rather than merges: afterwards the saved list holds exactly one entry with
that id, whose generations are the list being saved and whose preview image is
the first generation's image URL at save time. -/
theorem saveCurrentProject_overwrites (pid now : String) (hpid : pid ≠ "")
    (savedProjects : List SavedProject) (g0 : Generation) (gs : List Generation) :
    (saveCurrentProject (some pid) savedProjects now (g0 :: gs)).savedProjects.filter
        (fun p => p.id == pid) =
      [{ id := pid, generations := g0 :: gs, timestamp := now,
         previewImage := g0.imageUrl }] := by
  have hnil : (savedProjects.filter (fun p => p.id != pid)).filter
      (fun p => p.id == pid) = [] := by
    rw [List.filter_filter, List.filter_eq_nil_iff]
    intro q _
    by_cases h : q.id = pid <;> simp [h]
  simp [saveCurrentProject, hpid, List.filter_cons, hnil]

/-- Witness for C5: re-saving a project under an existing id leaves exactly
one entry with that id, carrying the new generation list and preview. -/
theorem saveCurrentProject_overwrites_witness :
    (saveCurrentProject (some "2024-01-01T00:00:00.000Z")
        [{ id := "2024-01-01T00:00:00.000Z",
           generations := [{ imageUrl := "old", description := "d0" }],
           timestamp := "t0", previewImage := "old" }] "t1"
        [{ imageUrl := "new", description := "d1" }]).savedProjects.filter
        (fun p => p.id == "2024-01-01T00:00:00.000Z") =
      [{ id := "2024-01-01T00:00:00.000Z",
         generations := [{ imageUrl := "new", description := "d1" }],
         timestamp := "t1", previewImage := "new" }] :=
  saveCurrentProject_overwrites "2024-01-01T00:00:00.000Z" "t1" (by decide) _ _ _

/-- **C9**: every save prepends the saved project: the head of the resulting
list is the entry just saved, and the tail is the previous list minus any
entry carrying the active id, with the remaining entries in their previous
relative order — so the list is ordered most-recently-saved first and saving
an existing project moves it to the front. -/
theorem saveCurrentProject_prepends (pid now : String) (hpid : pid ≠ "")
    (savedProjects : List SavedProject) (g0 : Generation) (gs : List Generation) :
    (saveCurrentProject (some pid) savedProjects now (g0 :: gs)).savedProjects.head? =
      some { id := pid, generations := g0 :: gs, timestamp := now,
             previewImage := g0.imageUrl } ∧
    (saveCurrentProject (some pid) savedProjects now (g0 :: gs)).savedProjects.tail.Sublist
      savedProjects ∧
    (∀ p ∈ (saveCurrentProject (some pid) savedProjects now (g0 :: gs)).savedProjects.tail,
      p.id ≠ pid) ∧
    (∀ p ∈ savedProjects, p.id ≠ pid →
      p ∈ (saveCurrentProject (some pid) savedProjects now (g0 :: gs)).savedProjects.tail) := by
  have hsave : (saveCurrentProject (some pid) savedProjects now (g0 :: gs)).savedProjects =
      { id := pid, generations := g0 :: gs, timestamp := now, previewImage := g0.imageUrl }
        :: savedProjects.filter (fun p => p.id != pid) := by
    simp [saveCurrentProject, hpid]
  rw [hsave]
  refine ⟨rfl, List.filter_sublist _, ?_, ?_⟩
  · intro p hp
    have hm : p ∈ savedProjects.filter (fun q => q.id != pid) := hp
    have := (List.mem_filter.mp hm).2
    simpa using this
  · intro p hp hne
    show p ∈ savedProjects.filter (fun q => q.id != pid)
    exact List.mem_filter.mpr ⟨hp, by simpa using hne⟩

/-- Witness for C9: saving under an id already present moves that project to
the front and drops its old entry from the tail. -/
theorem saveCurrentProject_prepends_witness :
    (saveCurrentProject (some "p1")
        [{ id := "p0", generations := [], timestamp := "t0", previewImage := "u0" },
         { id := "p1", generations := [], timestamp := "t0", previewImage := "old" }] "t1"
        [{ imageUrl := "new", description := "d" }]).savedProjects.head? =
      some { id := "p1", generations := [{ imageUrl := "new", description := "d" }],
             timestamp := "t1", previewImage := "new" } ∧
    ({ id := "p0", generations := [], timestamp := "t0", previewImage := "u0" }
        : SavedProject) ∈
      (saveCurrentProject (some "p1")
        [{ id := "p0", generations := [], timestamp := "t0", previewImage := "u0" },
         { id := "p1", generations := [], timestamp := "t0", previewImage := "old" }] "t1"
        [{ imageUrl := "new", description := "d" }]).savedProjects.tail := by
  have h := saveCurrentProject_prepends "p1" "t1" (by decide)
    [{ id := "p0", generations := [], timestamp := "t0", previewImage := "u0" },
     { id := "p1", generations := [], timestamp := "t0", previewImage := "old" }]
    { imageUrl := "new", description := "d" } []
  exact ⟨h.1, h.2.2.2 _ (by simp) (by decide)⟩

/-- **C3**: a successful edit on the last generation, followed by the re-save,
replaces only that generation's image URL — its description and every earlier
generation are unchanged — and the project entry holding exactly this updated
generation list is prepended to the saved list (replacing any entry with the
same id). -/
theorem handleEdit_success_updates_only_last (st : AppState) (now : String)
    (init : List Generation) (last : Generation) (pid newImageUrl : String)
    (hg : st.generations = init ++ [last]) (hp : st.editPrompt ≠ "")
    (hid : st.currentProjectId = some pid) (hpid : pid ≠ "") :
    (handleEdit st now (.ok newImageUrl)).generations =
      init ++ [{ imageUrl := newImageUrl, description := last.description }] ∧
    (∃ prev, (handleEdit st now (.ok newImageUrl)).savedProjects =
      { id := pid,
        generations := init ++ [{ imageUrl := newImageUrl, description := last.description }],
        timestamp := now, previewImage := prev }
        :: st.savedProjects.filter (fun p => p.id != pid)) := by
  have hguard : ¬(st.editPrompt = "" ∨ st.generations = []) := by
    rw [hg]; push_neg; exact ⟨hp, by simp⟩
  have hgen : updateLastImage st.generations newImageUrl
      = init ++ [{ imageUrl := newImageUrl, description := last.description }] := by
    rw [hg]; exact updateLastImage_append init last newImageUrl
  constructor
  · simp only [handleEdit, if_neg hguard]
    exact hgen
  · simp only [handleEdit, if_neg hguard]
    rw [hgen, hid]
    cases init with
    | nil => exact ⟨newImageUrl, by simp [saveCurrentProject, hpid]⟩
    | cons g gs => exact ⟨g.imageUrl, by simp [saveCurrentProject, hpid]⟩

/-- A sample generation used by the `handleEdit` witnesses. -/
def sampleGen1 : Generation := { imageUrl := "u1", description := "d1" }

/-- A second sample generation used by the `handleEdit` witnesses. -/
def sampleGen2 : Generation := { imageUrl := "u2", description := "d2" }

/-- A sample saved project used by the `handleEdit` witnesses. -/
def sampleProject : SavedProject :=
  { id := "p1", generations := [sampleGen1], timestamp := "t0", previewImage := "u1" }

/-- A sample app state (two generations, project `p1` active) used by the
`handleEdit` witnesses. -/
def sampleState : AppState :=
  { step := AppStep.result, error := "", generations := [sampleGen1, sampleGen2],
    editPrompt := "cambia el fondo", currentProjectId := some "p1",
    savedProjects := [sampleProject] }

/-- Witness for C3: editing the second of two generations replaces only its
image URL; the earlier generation and both descriptions survive, and the
re-saved entry heads the saved list. -/
theorem handleEdit_success_updates_only_last_witness :
    (handleEdit sampleState "t1" (EditCallResult.ok "u3")).generations =
      [sampleGen1, { imageUrl := "u3", description := "d2" }] ∧
    (∃ prev, (handleEdit sampleState "t1" (EditCallResult.ok "u3")).savedProjects =
      [{ id := "p1", generations := [sampleGen1, { imageUrl := "u3", description := "d2" }],
         timestamp := "t1", previewImage := prev }]) := by
  have h := handleEdit_success_updates_only_last sampleState "t1" [sampleGen1] sampleGen2
    "p1" "u3" rfl (by decide) rfl (by decide)
  refine ⟨h.1, ?_⟩
  obtain ⟨prev, hprev⟩ := h.2
  refine ⟨prev, ?_⟩
  rw [hprev]
  rfl

/-- **C10**: when the edit call throws, the generation list and the saved
projects are left exactly as they were, the error message is set from the
thrown message, and the step returns to `result`. -/
theorem handleEdit_failure_preserves_state (st : AppState) (now msg : String)
    (hp : st.editPrompt ≠ "") (hg : st.generations ≠ []) :
    (handleEdit st now (.thrown msg)).generations = st.generations ∧
    (handleEdit st now (.thrown msg)).savedProjects = st.savedProjects ∧
    (handleEdit st now (.thrown msg)).error = "Error al editar imagen: " ++ msg ∧
    (handleEdit st now (.thrown msg)).step = AppStep.result := by
  have hguard : ¬(st.editPrompt = "" ∨ st.generations = []) := by
    push_neg; exact ⟨hp, hg⟩
  simp [handleEdit, if_neg hguard]

/-- Witness for C10: a thrown edit keeps generations and history intact and
surfaces the message. -/
theorem handleEdit_failure_preserves_state_witness :
    (handleEdit sampleState "t1" (EditCallResult.thrown "Failed to fetch")).generations =
      [sampleGen1, sampleGen2] ∧
    (handleEdit sampleState "t1" (EditCallResult.thrown "Failed to fetch")).savedProjects =
      [sampleProject] ∧
    (handleEdit sampleState "t1" (EditCallResult.thrown "Failed to fetch")).error =
      "Error al editar imagen: " ++ "Failed to fetch" ∧
    (handleEdit sampleState "t1" (EditCallResult.thrown "Failed to fetch")).step =
      AppStep.result :=
  handleEdit_failure_preserves_state sampleState "t1" "Failed to fetch"
    (by decide) (by decide)

end FlyApp
